import Mathlib

/-!
Verification development for the `angular-material-table` repository
(`src/app/ngx-material-table/table-data-source.ts` and the
`TableElementReactiveForms` row wrapper).

The TypeScript classes are shallowly embedded as Lean structures and pure
functions.  Mutable class state (`rowsSubject`, `currentData`, the two rxjs
channels) becomes explicit fields of a `TableDataSource` state record that
every operation transforms; a publication on `rowsSubject` (resp.
`datasourceSubject`) is modelled by consing the published value onto the
`rowEvents` (resp. `dataEvents`) log.  JavaScript array primitives used by
the source (`findIndex`, `splice`, `slice`, `push`, `concat`) are embedded
with their JavaScript semantics, including negative-index behaviour.
Machine numbers are embedded as `Int`/`Nat` (the source only ever handles
small array indices and the sentinel `-1`, so no overflow modelling is
needed).
-/

/-- `TableDataSourceOptions` (table-data-source.ts, lines 17-21).
All three flags default to `false`, matching the constructor's
`{prependNewElements: false, suppressErrors: false,
keepOriginalDataAfterConfirm: false, ...config}` merge. -/
structure TableDataSourceOptions where
  prependNewElements : Bool := false
  suppressErrors : Bool := false
  keepOriginalDataAfterConfirm : Bool := false
deriving DecidableEq, Repr

/-- One row of the table (`TableElement<T>`).  `id = -1` is the sentinel for
the uncommitted pending row.  The row's validation handle is abstracted to
the boolean `valid`: the value that `row.isValid()` returns.  (The theorem
about `TableElementReactiveForms.isValid` below proves that the real
`isValid()` is observably pure: it restores the handle's enabled/disabled
state, so a boolean field is a faithful abstraction at the data-source
level.) -/
structure TableElement (α : Type) where
  id : Int
  editing : Bool
  currentData : α
  originalData : Option α := none
  valid : Bool := true
deriving DecidableEq, Repr

/-- Angular `FormGroup` as seen by `TableElementReactiveForms`: a disabled
flag plus the validity of the current content.  Modelled from the spec's
description of the validation handle ("object exposing enable/disable, raw
value get/patch, and a validity flag"); `@angular/forms` itself is an
external collaborator, not repository code.  A disabled group does not
report content validity (`valid` is `false` while disabled, which is why
`isValid` re-enables before reading). -/
structure FormGroup where
  disabled : Bool
  contentValid : Bool
deriving DecidableEq, Repr

/-- `formGroup.enable()`. -/
def FormGroup.enable (g : FormGroup) : FormGroup := { g with disabled := false }

/-- `formGroup.disable()`. -/
def FormGroup.disable (g : FormGroup) : FormGroup := { g with disabled := true }

/-- `formGroup.valid`: content validity is only reported while enabled. -/
def FormGroup.valid (g : FormGroup) : Bool := !g.disabled && g.contentValid

namespace TableElementReactiveForms

/-- `TableElementReactiveForms.isValid` (part_000, lines 34-43), as a state
transformer on the validation handle: returns the boolean result together
with the handle state after the call.

```ts
isValid(): boolean {
  if (this.validator.disabled) {
    this.validator.enable();
    const valid = this.validator.valid;
    this.validator.disable();
    return valid;
  }
  return this.validator.valid;
}
``` -/
def isValid (g : FormGroup) : Bool × FormGroup :=
  if g.disabled then
    let g1 := g.enable
    let valid := g1.valid
    let g2 := g1.disable
    (valid, g2)
  else
    (g.valid, g)

end TableElementReactiveForms

/-! ### JavaScript array primitives -/

/-- `Array.prototype.findIndex` as an `Option Nat`: index of the first
element satisfying `p`, or `none`. -/
def findIdxOpt (p : β → Bool) : List β → Option Nat
  | [] => none
  | x :: xs => if p x then some 0 else (findIdxOpt p xs).map (· + 1)

/-- Normalisation of a (possibly negative) JavaScript array index against a
length: negative indices count from the end and clamp at 0; non-negative
indices clamp at the length. -/
def jsNormIndex (len : Nat) (i : Int) : Nat :=
  if i < 0 then ((len : Int) + i).toNat else min i.toNat len

/-- `array.splice(start, 1)`: remove (at most) one element at the
normalised position. -/
def jsSpliceRemoveOne (l : List β) (start : Int) : List β :=
  let a := jsNormIndex l.length start
  l.take a ++ l.drop (a + 1)

/-- `array.splice(start, 0, x)`: insert `x` at the normalised position. -/
def jsSpliceInsertOne (l : List β) (start : Int) (x : β) : List β :=
  let a := jsNormIndex l.length start
  l.take a ++ x :: l.drop a

/-- `array.slice(start, stop)`. -/
def jsSlice (l : List β) (start stop : Int) : List β :=
  (l.take (jsNormIndex l.length stop)).drop (jsNormIndex l.length start)

/-- `array.slice(start)`. -/
def jsSliceFrom (l : List β) (start : Int) : List β :=
  l.drop (jsNormIndex l.length start)

/-- The `clamp` helper of `@angular/cdk`'s `moveItemInArray`:
`Math.max(0, Math.min(max, value))`. -/
def clampIndex (value : Int) (maxIndex : Int) : Int :=
  max 0 (min maxIndex value)

/-- `moveItemInArray` from `@angular/cdk/drag-drop` (external collaborator;
the spec reduces it to "reorder by index pair").  Both indices are clamped
to `[0, length-1]`; if they coincide nothing happens; otherwise the element
at `from` is removed and re-inserted at `to` (which is what the cdk's
shifting loop computes). -/
def moveItemInArray (l : List β) (fromIndex toIndex : Int) : List β :=
  let last := (l.length : Int) - 1
  let f := clampIndex fromIndex last
  let t := clampIndex toIndex last
  if f = t then l
  else
    match l[f.toNat]? with
    | none => l
    | some x => (l.take f.toNat ++ l.drop (f.toNat + 1)).take t.toNat
        ++ x :: (l.take f.toNat ++ l.drop (f.toNat + 1)).drop t.toNat

/-! ### The data source state -/

/-- State of one `TableDataSource<T>` instance.

* `rows` — the current value of `rowsSubject`.
* `currentDataRef` — reference identity of `this.currentData`.  JavaScript
  compares `this.currentData !== data` by reference, so a caller-supplied
  record collection is modelled as a `Nat` token chosen by the caller;
  `none` stands for a reference no caller holds (the initial `undefined`,
  or the fresh array built by `updateDatasourceFromRows`).
* `rowEvents` — log of publications on `rowsSubject` (most recent first),
  seeded with the `BehaviorSubject`'s initial value.
* `dataEvents` — log of publications on `datasourceSubject`.
* `emptyRecord` — the record produced by `createNewObject()` (the
  spec's explicit "empty record factory" collaborator).
* `freshRowValid` — what a freshly built validation handle reports
  (`true` for the default always-valid capability). -/
structure TableDataSource (α : Type) where
  config : TableDataSourceOptions
  emptyRecord : α
  freshRowValid : Bool
  rows : List (TableElement α)
  currentDataRef : Option Nat
  rowEvents : List (List (TableElement α))
  dataEvents : List (List α)
deriving DecidableEq, Repr

namespace TableDataSource

/-- `getRowIdFromIndex(index, count)` (lines 279-285). -/
def getRowIdFromIndex (config : TableDataSourceOptions) (index count : Nat) : Int :=
  if config.prependNewElements then (count : Int) - 1 - index else index

/-- `getIndexFromRowId(id, source)` (lines 293-295):
`source.findIndex(element => element.id === id)`, hence `-1` on a miss. -/
def getIndexFromRowId (id : Int) (source : List (TableElement α)) : Int :=
  match findIdxOpt (fun e => decide (e.id = id)) source with
  | some i => (i : Int)
  | none => -1

/-- `getNewRowIndex(source)` (lines 268-270). -/
def getNewRowIndex (source : List (TableElement α)) : Int :=
  getIndexFromRowId (-1) source

/-- `existsNewElement(source)` (lines 259-261). -/
def existsNewElement (source : List (TableElement α)) : Bool :=
  decide (source.length > 0) && decide (getNewRowIndex source > -1)

/-- Whether the `for` loop of `updateRowIds` visits array position `idx`.
The loop is `for (let index = initialIndex; index < source.length && index
>= 0; index += delta)` with `delta = -1` in prepend mode and `+1` in append
mode, so it visits `initialIndex, initialIndex ± 1, ...` while the index
stays inside `[0, len)`: in prepend mode exactly the positions
`idx ≤ initialIndex` (and only if `0 ≤ initialIndex < len`), in append mode
exactly the positions `idx ≥ initialIndex` (and only if
`0 ≤ initialIndex`; `idx < len` holds for every real position). -/
def rowIdUpdateApplies (prepend : Bool) (initialIndex : Int) (len idx : Nat) : Bool :=
  if prepend then
    decide (0 ≤ initialIndex ∧ initialIndex < (len : Int) ∧ (idx : Int) ≤ initialIndex)
  else
    decide (0 ≤ initialIndex ∧ initialIndex ≤ (idx : Int))

/-- Recursive body of `updateRowIds`: each visited position whose row is
not the pending row gets `id = getRowIdFromIndex(index, source.length)`.
The loop body only writes to the position it is visiting and the array
length never changes, so the imperative loop is this independent
per-position update. -/
def updateRowIdsGo (config : TableDataSourceOptions) (initialIndex : Int)
    (len : Nat) : Nat → List (TableElement α) → List (TableElement α)
  | _, [] => []
  | idx, r :: rs =>
    (if r.id ≠ -1 ∧ rowIdUpdateApplies config.prependNewElements initialIndex len idx
     then { r with id := getRowIdFromIndex config idx len }
     else r) :: updateRowIdsGo config initialIndex len (idx + 1) rs

/-- `updateRowIds(initialIndex, source)` (lines 304-313). -/
def updateRowIds (config : TableDataSourceOptions) (initialIndex : Int)
    (source : List (TableElement α)) : List (TableElement α) :=
  updateRowIdsGo config initialIndex source.length 0 source

/-- Recursive body of `getRowsFromData`. -/
def getRowsFromDataGo (config : TableDataSourceOptions) (freshRowValid : Bool)
    (count : Nat) : Nat → List α → List (TableElement α)
  | _, [] => []
  | idx, d :: ds =>
    { id := getRowIdFromIndex config idx count
      editing := false
      currentData := d
      originalData := none
      valid := freshRowValid } :: getRowsFromDataGo config freshRowValid count (idx + 1) ds

/-- `getRowsFromData(arrayData)` (lines 340-351): wrap each record in a row
with `id = getRowIdFromIndex(index, arrayData.length)` and
`editing = false`. -/
def getRowsFromData (config : TableDataSourceOptions) (freshRowValid : Bool)
    (arrayData : List α) : List (TableElement α) :=
  getRowsFromDataGo config freshRowValid arrayData.length 0 arrayData

/-- `getDataFromRows(rows)` (lines 319-325): committed rows only; a row
whose truthy `originalData` is present is exported as `originalData`
instead of `currentData` unless `keepOriginalDataAfterConfirm`. -/
def getDataFromRows (config : TableDataSourceOptions)
    (rows : List (TableElement α)) : List α :=
  (rows.filter (fun r => decide (r.id ≠ -1))).map fun r =>
    if !config.keepOriginalDataAfterConfirm ∧ r.originalData.isSome
    then r.originalData.getD r.currentData
    else r.currentData

/-- `updateDatasourceFromRows(rows)` (lines 331-334): store the freshly
extracted record array in `currentData` (a new array, so no caller-held
reference — `none`) and publish it on `datasourceSubject`. -/
def updateDatasourceFromRows (s : TableDataSource α)
    (rows : List (TableElement α)) : TableDataSource α :=
  let d := getDataFromRows s.config rows
  { s with currentDataRef := none, dataEvents := d :: s.dataEvents }

/-- The pending row built by `createNew` via
`TableElementFactory.createTableElement({id: -1, editing: true,
currentData: this.createNewObject(), ...})`.  The factory and
`createNewObject` are modelled by the state's `emptyRecord`/`freshRowValid`
collaborator fields. -/
def newTableElement (s : TableDataSource α) : TableElement α :=
  { id := -1
    editing := true
    currentData := s.emptyRecord
    originalData := none
    valid := s.freshRowValid }

/-- `createNew(insertAt?)` (lines 108-133).  The argument is `Option Int`;
the source's `if (insertAt)` is JavaScript truthiness, so `some 0` takes
the same branch as `none` (`0` is falsy). -/
def createNew (s : TableDataSource α) (insertAt : Option Int) : TableDataSource α :=
  let source := s.rows
  if existsNewElement source then s
  else
    let newElement := newTableElement s
    let truthy : Bool := match insertAt with
      | some i => decide (i ≠ 0)
      | none => false
    let newRows :=
      if truthy then jsSpliceInsertOne source (insertAt.getD 0) newElement
      else if s.config.prependNewElements then newElement :: source
      else source ++ [newElement]
    { s with rows := newRows, rowEvents := newRows :: s.rowEvents }

/-- `confirmCreate(row)` (lines 140-156).  The caller passes a reference to
a row object; here the reference is the row's position `idx` in the
sequence (`s.rows[idx]?`; a position past the end models no real call and
is returned unchanged).  Mirrors the source order: validity gate, then
`row.id = source.length - 1`, publish rows, optional `originalData`
snapshot, `editing = false`, publish extracted records. -/
def confirmCreate (s : TableDataSource α) (idx : Nat) : Bool × TableDataSource α :=
  match s.rows[idx]? with
  | none => (false, s)
  | some row =>
    if row.valid = false then (false, s)
    else
      let source := s.rows
      let row1 := { row with id := (source.length : Int) - 1 }
      let source1 := source.set idx row1
      let row2 := if s.config.keepOriginalDataAfterConfirm
        then { row1 with originalData := some row1.currentData } else row1
      let row3 := { row2 with editing := false }
      let source2 := source1.set idx row3
      (true, updateDatasourceFromRows
        { s with rows := source2, rowEvents := source1 :: s.rowEvents } source2)

/-- `confirmEdit(row)` (lines 163-181).  As in `confirmCreate`, the row
reference is its position `idx`.  The source looks up
`getIndexFromRowId(row.id)` (the first row carrying that id, which may
differ from `idx` if ids are duplicated) and assigns `source[index] = row`;
the subsequent in-place mutations of the `row` object are visible at both
positions holding it, hence the two `set`s with the mutated row. -/
def confirmEdit (s : TableDataSource α) (idx : Nat) : Bool × TableDataSource α :=
  match s.rows[idx]? with
  | none => (false, s)
  | some row =>
    if row.valid = false then (false, s)
    else
      let source := s.rows
      let index := getIndexFromRowId row.id source
      let source1 := if 0 ≤ index then source.set index.toNat row else source
      let row1 := if s.config.keepOriginalDataAfterConfirm then row
        else { row with originalData := none }
      let row2 := { row1 with editing := false }
      let source2 :=
        (if 0 ≤ index then source1.set index.toNat row2 else source1).set idx row2
      (true, updateDatasourceFromRows
        { s with rows := source2, rowEvents := source1 :: s.rowEvents } source2)

/-- `delete(id)` (lines 186-198): locate by id (`-1` on a miss), splice one
element out at that (possibly negative) index, renumber from that index,
publish rows, and publish records unless `id = -1`. -/
def delete (s : TableDataSource α) (id : Int) : TableDataSource α :=
  let source := s.rows
  let index := getIndexFromRowId id source
  let source1 := jsSpliceRemoveOne source index
  let source2 := updateRowIds s.config index source1
  let s1 := { s with rows := source2, rowEvents := source2 :: s.rowEvents }
  if id ≠ -1 then updateDatasourceFromRows s1 source2 else s1

/-- `move(id, direction)` (lines 205-221). -/
def move (s : TableDataSource α) (id : Int) (direction : Int) : TableDataSource α :=
  if direction = 0 then s
  else
    let source := s.rows
    let index := getIndexFromRowId id source
    let source1 := moveItemInArray source index (index + direction)
    let source2 := updateRowIds s.config 0 source1
    let s1 := { s with rows := source2, rowEvents := source2 :: s.rowEvents }
    if id ≠ -1 then updateDatasourceFromRows s1 source2 else s1

/-- `updateDatasource(data, {emitEvent})` (lines 243-252).  `refId` is the
reference identity of the caller's record collection and `contents` its
records; `this.currentData !== data` is the reference comparison. -/
def updateDatasource (s : TableDataSource α) (refId : Nat) (contents : List α)
    (emitEvent : Bool) : TableDataSource α :=
  if s.currentDataRef = some refId then s
  else
    let rows := getRowsFromData s.config s.freshRowValid contents
    let s1 := { s with
      currentDataRef := some refId
      rows := rows
      rowEvents := rows :: s.rowEvents }
    if emitEvent then { s1 with dataEvents := contents :: s1.dataEvents } else s1

/-- The constructor (lines 50-82): wrap the initial records and seed the
`BehaviorSubject`; `this.currentData` starts unset (`none`). -/
def ofData (config : TableDataSourceOptions) (emptyRecord : α) (freshRowValid : Bool)
    (data : List α) : TableDataSource α :=
  let rows := getRowsFromData config freshRowValid data
  { config := config
    emptyRecord := emptyRecord
    freshRowValid := freshRowValid
    rows := rows
    currentDataRef := none
    rowEvents := [rows]
    dataEvents := [] }

end TableDataSource

/-! ### Diagnostics (`checkValidatorFields` / `logError`) -/

/-- `logError(message)` (lines 98-102), returning the list of messages
written to the console. -/
def logError (suppressErrors : Bool) (message : String) : List String :=
  if !suppressErrors then [message] else []

/-- `checkValidatorFields(validatorService)` (lines 84-96), returning the
console output.  `validatorKeys` is `Object.keys(formGroup.controls)` when
`getRowValidator()` is non-null (`none` models a null validator),
`rowKeys` is `Object.keys(this.createNewObject())`.  Note the guard: the
source returns early when `!this._config.suppressErrors`. -/
def checkValidatorFields (suppressErrors : Bool)
    (validatorKeys : Option (List String)) (rowKeys : List String) : List String :=
  if !suppressErrors then []
  else
    match validatorKeys with
    | none => []
    | some ks =>
      let invalidKeys := ks.filter fun k => !(rowKeys.contains k)
      if invalidKeys.length > 0 then
        logError suppressErrors
          ("Validator form control keys must match row object keys. Invalid keys: "
            ++ String.intercalate "," invalidKeys)
      else []

/-! ### Windowed delivery (`connect`) -/

/-- `ListRange` from `@angular/cdk/collections`; `stop` is the source's
`end` field (a reserved word in Lean). -/
structure ListRange where
  start : Int
  stop : Int
deriving DecidableEq, Repr

/-- The slicing function inside `connect`'s `map` operator
(lines 393-404), applied to the latest viewer-reported range:

```ts
if (range.start > 0) {
  if (range.end > range.start) { return data.slice(range.start, range.end); }
  return data.slice(range.start);
}
return data;
``` -/
def connectSlice (range : ListRange) (data : List β) : List β :=
  if range.start > 0 then
    if range.stop > range.start then jsSlice data range.start range.stop
    else jsSliceFrom data range.start
  else data

/-- Modelled from the spec: the windowing rule as the claim states it —
"the slice `[start, end)` when `end > start`, the slice `[start, +∞)`
otherwise when applicable, and the full sequence when `start = 0`", taking
the clauses in the order given. -/
def connectSliceClaim (range : ListRange) (data : List β) : List β :=
  if range.stop > range.start then jsSlice data range.start range.stop
  else if range.start > 0 then jsSliceFrom data range.start
  else data

/-! ### The claimed id invariant -/

/-- Modelled from the spec: Invariant A — the ids of the committed rows
(`id ≠ -1`) are exactly `0, 1, ..., n-1` in sequence order under append
mode, and `n-1, ..., 1, 0` under prepend mode, where `n` is the number of
committed rows. -/
def committedIdsConsistent (config : TableDataSourceOptions)
    (rows : List (TableElement α)) : Bool :=
  let committed := rows.filter fun r => decide (r.id ≠ -1)
  let n := committed.length
  let expected : List Int :=
    if config.prependNewElements
    then ((List.range n).reverse).map (fun i => (i : Int))
    else (List.range n).map (fun i => (i : Int))
  committed.map TableElement.id = expected

/-! ### Operation sequences -/

/-- One externally invokable mutating operation of the data source. -/
inductive TableOp (α : Type) where
  | createNew (insertAt : Option Int)
  | confirmCreate (idx : Nat)
  | confirmEdit (idx : Nat)
  | delete (id : Int)
  | move (id : Int) (direction : Int)
  | updateDatasource (refId : Nat) (contents : List α) (emitEvent : Bool)

/-- Apply one operation to the state (the boolean results of the confirm
operations are discarded here). -/
def applyOp (s : TableDataSource α) : TableOp α → TableDataSource α
  | .createNew insertAt => s.createNew insertAt
  | .confirmCreate idx => (s.confirmCreate idx).2
  | .confirmEdit idx => (s.confirmEdit idx).2
  | .delete id => s.delete id
  | .move id direction => s.move id direction
  | .updateDatasource refId contents emitEvent => s.updateDatasource refId contents emitEvent

/-- Apply a sequence of operations, oldest first. -/
def applyOps (s : TableDataSource α) (ops : List (TableOp α)) : TableDataSource α :=
  ops.foldl applyOp s

/-- The pending-row predicate: `id = -1`. -/
def isPendingRow (r : TableElement α) : Bool := decide (r.id = -1)

/-- Number of pending rows (`id = -1`) in a row sequence. -/
def pendingCount (rows : List (TableElement α)) : Nat :=
  rows.countP isPendingRow

/-! ### Helper lemmas -/

theorem findIdxOpt_eq_none_iff {p : β → Bool} {l : List β} :
    findIdxOpt p l = none ↔ ∀ x ∈ l, p x = false := by
  induction l with
  | nil => simp [findIdxOpt]
  | cons a l ih =>
    by_cases h : p a <;> simp [findIdxOpt, h, ih]

theorem findIdxOpt_eq_some {p : β → Bool} {l : List β} {i : Nat}
    (h : findIdxOpt p l = some i) : ∃ hi : i < l.length, p (l.get ⟨i, hi⟩) = true := by
  induction l generalizing i with
  | nil => simp [findIdxOpt] at h
  | cons a l ih =>
    by_cases ha : p a
    · simp [findIdxOpt, ha] at h
      subst h
      exact ⟨by simp, ha⟩
    · simp [findIdxOpt, ha] at h
      obtain ⟨j, hj, rfl⟩ := h
      obtain ⟨hjl, hpj⟩ := ih hj
      exact ⟨by simpa using hjl, by simpa using hpj⟩

theorem countP_tail_le (p : β → Bool) (l : List β) :
    l.tail.countP p ≤ l.countP p := by
  cases l with
  | nil => simp
  | cons a l => simp [List.countP_cons]

/-- Removing the element at position `i` (the `take i ++ drop (i+1)` shape)
never increases a `countP`. -/
theorem countP_removeShape_le (p : β → Bool) (l : List β) (i : Nat) :
    (l.take i ++ l.drop (i + 1)).countP p ≤ l.countP p := by
  have hdrop : l.drop (i + 1) = (l.drop i).tail := by
    rw [← List.drop_one, List.drop_drop]
  calc (l.take i ++ l.drop (i + 1)).countP p
      = (l.take i).countP p + (l.drop (i + 1)).countP p := List.countP_append ..
    _ ≤ (l.take i).countP p + (l.drop i).countP p := by
        rw [hdrop]; exact Nat.add_le_add_left (countP_tail_le p _) _
    _ = ((l.take i ++ l.drop i)).countP p := (List.countP_append ..).symm
    _ = l.countP p := by rw [List.take_append_drop]

/-- Exact balance for removing position `i` when it is in range. -/
theorem countP_removeShape_balance (p : β → Bool) (l : List β) (i : Nat)
    (h : i < l.length) :
    (l.take i ++ l.drop (i + 1)).countP p + (if p l[i] then 1 else 0) = l.countP p := by
  have h1 : l.take (i + 1) = l.take i ++ [l[i]] := by
    rw [List.take_succ]
    simp [List.getElem?_eq_getElem h]
  calc (l.take i ++ l.drop (i + 1)).countP p + (if p l[i] then 1 else 0)
      = (l.take i).countP p + (if p l[i] then 1 else 0) + (l.drop (i + 1)).countP p := by
        rw [List.countP_append]; omega
    _ = (l.take i ++ [l[i]]).countP p + (l.drop (i + 1)).countP p := by
        rw [List.countP_append]; simp [List.countP_cons]
    _ = (l.take (i + 1)).countP p + (l.drop (i + 1)).countP p := by rw [h1]
    _ = (l.take (i + 1) ++ l.drop (i + 1)).countP p := (List.countP_append ..).symm
    _ = l.countP p := by rw [List.take_append_drop]

/-- Inserting an element (the `take i ++ x :: drop i` shape) adds its own
contribution to a `countP`. -/
theorem countP_insertShape (p : β → Bool) (l : List β) (i : Nat) (x : β) :
    (l.take i ++ x :: l.drop i).countP p = l.countP p + (if p x then 1 else 0) := by
  rw [List.countP_append, List.countP_cons]
  have h2 : (l.take i ++ l.drop i).countP p = (l.take i).countP p + (l.drop i).countP p := by
    rw [List.countP_append]
  rw [List.take_append_drop] at h2
  omega

theorem countP_jsSpliceRemoveOne_le (p : β → Bool) (l : List β) (start : Int) :
    (jsSpliceRemoveOne l start).countP p ≤ l.countP p :=
  countP_removeShape_le p l _

theorem countP_jsSpliceInsertOne (p : β → Bool) (l : List β) (start : Int) (x : β) :
    (jsSpliceInsertOne l start x).countP p = l.countP p + (if p x then 1 else 0) :=
  countP_insertShape p l _ x

theorem countP_moveItemInArray (p : β → Bool) (l : List β) (fromIndex toIndex : Int) :
    (moveItemInArray l fromIndex toIndex).countP p = l.countP p := by
  unfold moveItemInArray
  by_cases hft : clampIndex fromIndex ((l.length : Int) - 1) = clampIndex toIndex ((l.length : Int) - 1)
  · simp [hft]
  · simp only [hft, if_false]
    set f := (clampIndex fromIndex ((l.length : Int) - 1)).toNat with hf
    cases hx : l[f]? with
    | none => simp
    | some x =>
      obtain ⟨hlt, hget⟩ := List.getElem?_eq_some_iff.mp hx
      rw [countP_insertShape, ← hget]
      exact countP_removeShape_balance p l f hlt

theorem TableDataSource.countP_updateRowIdsGo (config : TableDataSourceOptions)
    (initialIndex : Int) (len : Nat) (idx : Nat) (l : List (TableElement α)) :
    (TableDataSource.updateRowIdsGo config initialIndex len idx l).countP isPendingRow
      = l.countP isPendingRow := by
  induction l generalizing idx with
  | nil => rfl
  | cons r rs ih =>
    unfold TableDataSource.updateRowIdsGo
    by_cases hc : r.id ≠ -1 ∧
        TableDataSource.rowIdUpdateApplies config.prependNewElements initialIndex len idx = true
    · have hne : TableDataSource.getRowIdFromIndex config idx len ≠ -1 := by
        unfold TableDataSource.getRowIdFromIndex
        obtain ⟨h1, h2⟩ := hc
        unfold TableDataSource.rowIdUpdateApplies at h2
        by_cases hp : config.prependNewElements
        · simp only [hp, if_true, decide_eq_true_eq] at h2
          simp only [hp, if_true]
          omega
        · simp only [hp, Bool.false_eq_true, if_false, decide_eq_true_eq] at h2
          simp only [hp, Bool.false_eq_true, if_false]
          omega
      simp [hc, List.countP_cons, ih, isPendingRow, hne, hc.1]
    · simp [hc, List.countP_cons, ih]

theorem TableDataSource.countP_updateRowIds (config : TableDataSourceOptions)
    (initialIndex : Int) (source : List (TableElement α)) :
    (TableDataSource.updateRowIds config initialIndex source).countP isPendingRow
      = source.countP isPendingRow :=
  TableDataSource.countP_updateRowIdsGo config initialIndex source.length 0 source

/-- With a negative start index the renumbering loop never runs. -/
theorem TableDataSource.updateRowIdsGo_of_neg (config : TableDataSourceOptions)
    {initialIndex : Int} (h : initialIndex < 0) (len : Nat) (idx : Nat)
    (l : List (TableElement α)) :
    TableDataSource.updateRowIdsGo config initialIndex len idx l = l := by
  induction l generalizing idx with
  | nil => rfl
  | cons r rs ih =>
    unfold TableDataSource.updateRowIdsGo
    have happ : TableDataSource.rowIdUpdateApplies config.prependNewElements
        initialIndex len idx = false := by
      unfold TableDataSource.rowIdUpdateApplies
      by_cases hp : config.prependNewElements <;> simp [hp] <;> omega
    simp [happ, ih]

theorem TableDataSource.updateRowIds_of_neg (config : TableDataSourceOptions)
    {initialIndex : Int} (h : initialIndex < 0) (source : List (TableElement α)) :
    TableDataSource.updateRowIds config initialIndex source = source :=
  TableDataSource.updateRowIdsGo_of_neg config h source.length 0 source

theorem TableDataSource.countP_getRowsFromDataGo (config : TableDataSourceOptions)
    (fv : Bool) (count : Nat) (idx : Nat) (l : List α) (h : idx + l.length ≤ count) :
    (TableDataSource.getRowsFromDataGo config fv count idx l).countP isPendingRow = 0 := by
  induction l generalizing idx with
  | nil => rfl
  | cons d ds ih =>
    unfold TableDataSource.getRowsFromDataGo
    have hne : TableDataSource.getRowIdFromIndex config idx count ≠ -1 := by
      unfold TableDataSource.getRowIdFromIndex
      simp only [List.length_cons] at h
      by_cases hp : config.prependNewElements
      · simp only [hp, if_true]
        omega
      · simp only [hp, Bool.false_eq_true, if_false]
        omega
    rw [List.countP_cons]
    have := ih (idx + 1) (by simp at h ⊢; omega)
    simp [isPendingRow, hne, this]

theorem TableDataSource.countP_getRowsFromData (config : TableDataSourceOptions)
    (fv : Bool) (data : List α) :
    (TableDataSource.getRowsFromData config fv data).countP isPendingRow = 0 :=
  TableDataSource.countP_getRowsFromDataGo config fv data.length 0 data (by omega)

/-- If `existsNewElement` is `false`, the sequence holds no pending row. -/
theorem TableDataSource.countP_eq_zero_of_not_existsNewElement
    {source : List (TableElement α)}
    (h : TableDataSource.existsNewElement source = false) :
    source.countP isPendingRow = 0 := by
  unfold TableDataSource.existsNewElement at h
  rw [Bool.and_eq_false_iff] at h
  rcases h with h | h
  · have : source.length = 0 := by simpa using h
    rw [List.length_eq_zero.mp this]
    rfl
  · unfold TableDataSource.getNewRowIndex TableDataSource.getIndexFromRowId at h
    cases hfi : findIdxOpt (fun e => decide (e.id = (-1 : Int))) source with
    | some i => rw [hfi] at h; simp at h; omega
    | none =>
      have hall := findIdxOpt_eq_none_iff.mp hfi
      rw [List.countP_eq_zero]
      intro a ha
      have := hall a ha
      simpa [isPendingRow] using this

theorem pendingCount_eq_countP (rows : List (TableElement α)) :
    pendingCount rows = rows.countP isPendingRow := rfl

theorem isPendingRow_newTableElement (s : TableDataSource α) :
    isPendingRow (TableDataSource.newTableElement s) = true := by
  simp [isPendingRow, TableDataSource.newTableElement]

/-- `createNew` preserves the single-pending-row bound: it is a no-op when
a pending row exists, and otherwise inserts exactly one pending row into a
sequence that has none. -/
theorem TableDataSource.pendingCount_createNew (s : TableDataSource α)
    (insertAt : Option Int) (h : pendingCount s.rows ≤ 1) :
    pendingCount (s.createNew insertAt).rows ≤ 1 := by
  unfold TableDataSource.createNew
  by_cases he : TableDataSource.existsNewElement s.rows
  · simp [he, h]
  · have hz : s.rows.countP isPendingRow = 0 :=
      TableDataSource.countP_eq_zero_of_not_existsNewElement (by simpa using he)
    have hpend := isPendingRow_newTableElement s
    rcases insertAt with _ | i
    · by_cases hp : s.config.prependNewElements
      · simp [he, hp, pendingCount_eq_countP, List.countP_cons, hz, hpend]
      · simp [he, hp, pendingCount_eq_countP, List.countP_append, List.countP_cons, hz, hpend]
    · by_cases hi : i = 0
      · subst hi
        by_cases hp : s.config.prependNewElements
        · simp [he, hp, pendingCount_eq_countP, List.countP_cons, hz, hpend]
        · simp [he, hp, pendingCount_eq_countP, List.countP_append, List.countP_cons, hz, hpend]
      · simp [he, hi, pendingCount_eq_countP, countP_jsSpliceInsertOne, hz, hpend]

theorem countP_set_le_of_neg (p : β → Bool) (l : List β) (i : Nat) (x : β)
    (hx : p x = false) : (l.set i x).countP p ≤ l.countP p := by
  by_cases h : i < l.length
  · rw [List.countP_set _ _ _ _ h, hx]
    simp
  · rw [List.set_eq_of_length_le (Nat.le_of_not_lt h)]

theorem countP_set_eq_of_pos (p : β → Bool) (l : List β) (i : Nat) (x : β)
    (hi : i < l.length) (hl : p l[i] = true) (hx : p x = true) :
    (l.set i x).countP p = l.countP p := by
  rw [List.countP_set _ _ _ _ hi, hl, hx]
  have h1 : 1 ≤ l.countP p := by
    have h2 := List.boole_getElem_le_countP p l i hi
    rw [hl] at h2
    simpa using h2
  simp only [if_pos]
  omega

theorem TableDataSource.pendingCount_confirmCreate (s : TableDataSource α) (idx : Nat) :
    pendingCount (s.confirmCreate idx).2.rows ≤ pendingCount s.rows := by
  unfold TableDataSource.confirmCreate
  cases hx : s.rows[idx]? with
  | none => simp
  | some row =>
    cases hvv : row.valid with
    | false => simp [hvv]
    | true =>
      obtain ⟨hlt, -⟩ := List.getElem?_eq_some_iff.mp hx
      simp [hvv, TableDataSource.updateDatasourceFromRows, List.set_set, pendingCount_eq_countP]
      have hne : ¬((s.rows.length : Int) - 1 = -1) := by omega
      by_cases hk : s.config.keepOriginalDataAfterConfirm <;>
        · simp only [hk, if_true, Bool.false_eq_true, if_false]
          rw [List.countP_set _ _ _ _ hlt]
          simp [isPendingRow, hne]

/-- Bounding the pending count of `confirmEdit`'s final sequence: the same
row object (carrying the id of the row at `idx`) is written at both the
looked-up position `j` and the caller's position `idx`. -/
theorem countP_double_set_le (l : List (TableElement α)) (idx j : Nat)
    (row r2 : TableElement α)
    (hidx : idx < l.length) (hrow : l[idx] = row)
    (hjlt : j < l.length) (hjid : l[j].id = row.id)
    (hr2 : r2.id = row.id)
    (h : l.countP isPendingRow ≤ 1) :
    ((l.set j r2).set idx r2).countP isPendingRow ≤ 1 := by
  by_cases hid : row.id = -1
  · have hq : isPendingRow r2 = true := by simp [isPendingRow, hr2, hid]
    have hidx2 : idx < (l.set j r2).length := by simpa using hidx
    have hl1 : isPendingRow ((l.set j r2)[idx]) = true := by
      by_cases he : idx = j
      · subst he
        rw [List.getElem_set_self]
        exact hq
      · rw [List.getElem_set_ne (fun hc => he hc.symm)]
        rw [hrow]
        simp [isPendingRow, hid]
    rw [countP_set_eq_of_pos _ _ _ _ hidx2 hl1 hq]
    rw [countP_set_eq_of_pos _ _ _ _ hjlt (by simp [isPendingRow, hjid, hid]) hq]
    exact h
  · have hq : isPendingRow r2 = false := by simp [isPendingRow, hr2, hid]
    calc ((l.set j r2).set idx r2).countP isPendingRow
        ≤ (l.set j r2).countP isPendingRow := countP_set_le_of_neg _ _ _ _ hq
      _ ≤ l.countP isPendingRow := countP_set_le_of_neg _ _ _ _ hq
      _ ≤ 1 := h

theorem TableDataSource.pendingCount_confirmEdit (s : TableDataSource α) (idx : Nat)
    (h : pendingCount s.rows ≤ 1) : pendingCount (s.confirmEdit idx).2.rows ≤ 1 := by
  unfold TableDataSource.confirmEdit
  cases hx : s.rows[idx]? with
  | none => simpa using h
  | some row =>
    cases hvv : row.valid with
    | false => simpa [hvv] using h
    | true =>
      obtain ⟨hidx, hrow⟩ := List.getElem?_eq_some_iff.mp hx
      have hmem : row ∈ s.rows := hrow ▸ List.getElem_mem hidx
      cases hj : findIdxOpt (fun e => decide (e.id = row.id)) s.rows with
      | none =>
        exact absurd (findIdxOpt_eq_none_iff.mp hj row hmem) (by simp)
      | some j =>
        obtain ⟨hjlt, hpj⟩ := findIdxOpt_eq_some hj
        have hjid : (s.rows.get ⟨j, hjlt⟩).id = row.id := by simpa using hpj
        simp only [pendingCount_eq_countP] at h
        simp [hvv, TableDataSource.updateDatasourceFromRows, TableDataSource.getIndexFromRowId,
          hj, List.set_set, pendingCount_eq_countP]
        refine countP_double_set_le s.rows idx j row _ hidx hrow hjlt
          (by simpa using hjid) ?_ h
        by_cases hk : s.config.keepOriginalDataAfterConfirm <;> simp [hk]

theorem TableDataSource.rows_delete (s : TableDataSource α) (id : Int) :
    (s.delete id).rows =
      TableDataSource.updateRowIds s.config (TableDataSource.getIndexFromRowId id s.rows)
        (jsSpliceRemoveOne s.rows (TableDataSource.getIndexFromRowId id s.rows)) := by
  unfold TableDataSource.delete
  by_cases hid : id ≠ -1 <;> simp [hid, TableDataSource.updateDatasourceFromRows]

theorem TableDataSource.pendingCount_delete (s : TableDataSource α) (id : Int) :
    pendingCount (s.delete id).rows ≤ pendingCount s.rows := by
  rw [pendingCount_eq_countP, pendingCount_eq_countP, TableDataSource.rows_delete,
    TableDataSource.countP_updateRowIds]
  exact countP_jsSpliceRemoveOne_le _ _ _

theorem TableDataSource.rows_move (s : TableDataSource α) (id direction : Int)
    (hd : direction ≠ 0) :
    (s.move id direction).rows =
      TableDataSource.updateRowIds s.config 0
        (moveItemInArray s.rows (TableDataSource.getIndexFromRowId id s.rows)
          (TableDataSource.getIndexFromRowId id s.rows + direction)) := by
  unfold TableDataSource.move
  by_cases hid : id ≠ -1 <;> simp [hd, hid, TableDataSource.updateDatasourceFromRows]

theorem TableDataSource.pendingCount_move (s : TableDataSource α) (id direction : Int) :
    pendingCount (s.move id direction).rows ≤ pendingCount s.rows := by
  by_cases hd : direction = 0
  · unfold TableDataSource.move
    simp [hd]
  · rw [pendingCount_eq_countP, pendingCount_eq_countP,
      TableDataSource.rows_move s id direction hd,
      TableDataSource.countP_updateRowIds, countP_moveItemInArray]

theorem TableDataSource.pendingCount_updateDatasource (s : TableDataSource α)
    (refId : Nat) (contents : List α) (emitEvent : Bool)
    (h : pendingCount s.rows ≤ 1) :
    pendingCount (s.updateDatasource refId contents emitEvent).rows ≤ 1 := by
  unfold TableDataSource.updateDatasource
  by_cases hr : s.currentDataRef = some refId
  · simpa [hr] using h
  · by_cases he : emitEvent <;>
      simp [hr, he, pendingCount_eq_countP, TableDataSource.countP_getRowsFromData]

/-- Every operation preserves the single-pending-row bound. -/
theorem pendingCount_applyOp (s : TableDataSource α) (op : TableOp α)
    (h : pendingCount s.rows ≤ 1) : pendingCount (applyOp s op).rows ≤ 1 := by
  cases op with
  | createNew insertAt => exact TableDataSource.pendingCount_createNew s insertAt h
  | confirmCreate idx => exact Nat.le_trans (TableDataSource.pendingCount_confirmCreate s idx) h
  | confirmEdit idx => exact TableDataSource.pendingCount_confirmEdit s idx h
  | delete id => exact Nat.le_trans (TableDataSource.pendingCount_delete s id) h
  | move id direction => exact Nat.le_trans (TableDataSource.pendingCount_move s id direction) h
  | updateDatasource refId contents emitEvent =>
    exact TableDataSource.pendingCount_updateDatasource s refId contents emitEvent h

theorem pendingCount_applyOps (s : TableDataSource α) (ops : List (TableOp α))
    (h : pendingCount s.rows ≤ 1) : pendingCount (applyOps s ops).rows ≤ 1 := by
  induction ops generalizing s with
  | nil => exact h
  | cons op ops ih => exact ih (applyOp s op) (pendingCount_applyOp s op h)

theorem pendingCount_ofData (config : TableDataSourceOptions) (emptyRecord : α)
    (freshRowValid : Bool) (data : List α) :
    pendingCount (TableDataSource.ofData config emptyRecord freshRowValid data).rows = 0 :=
  TableDataSource.countP_getRowsFromData config freshRowValid data

/-- `array.splice(-1, 1)` removes the last element (a negative start counts
from the end of the array). -/
theorem jsSpliceRemoveOne_neg_one (l : List β) :
    jsSpliceRemoveOne l (-1) = l.dropLast := by
  unfold jsSpliceRemoveOne jsNormIndex
  have ha : (((l.length : Int)) + -1).toNat = l.length - 1 := by omega
  simp only [if_pos (by omega : (-1 : Int) < 0), ha]
  rw [List.drop_eq_nil_of_le (by omega), List.dropLast_eq_take]
  simp

/-! ### Claim theorems -/

/-- C8: for every row, `isValid()` leaves the validation handle's
enabled/disabled state exactly as it was on entry (the enable/disable
toggle during the check is transient), and it returns the validity read
while the handle is enabled. -/
theorem claim8_isValid_preserves_handle_state (g : FormGroup) :
    (TableElementReactiveForms.isValid g).2 = g ∧
    (TableElementReactiveForms.isValid g).1 = (FormGroup.enable g).valid := by
  cases g with
  | mk disabled contentValid =>
    cases disabled <;>
      simp [TableElementReactiveForms.isValid, FormGroup.enable, FormGroup.disable,
        FormGroup.valid]

/-- C4: the constructor-time consistency check between validation-handle
field names and record field names can never emit its diagnostic, for any
configuration and any key sets: when `suppressErrors` is `false`,
`checkValidatorFields` returns before inspecting the keys (its guard is
`if (!this._config.suppressErrors) return;`), and when it is `true`,
`logError` swallows the message.  This contradicts the claim (and the
source's own comment) that the warning is emitted exactly when
`suppressErrors` is `false`. -/
theorem claim4_validator_mismatch_never_logged (suppressErrors : Bool)
    (validatorKeys : Option (List String)) (rowKeys : List String) :
    checkValidatorFields suppressErrors validatorKeys rowKeys = [] := by
  cases suppressErrors with
  | false => rfl
  | true =>
    cases validatorKeys with
    | none => rfl
    | some ks => simp [checkValidatorFields, logError]

/-- C7: every `delete` publishes the updated row sequence on the row
channel, and publishes on the record-output channel exactly when the
deleted id is not `-1` (deleting the pending row republishes rows only). -/
theorem claim7_delete_channel_publications (s : TableDataSource α) (id : Int) :
    (s.delete id).rowEvents.length = s.rowEvents.length + 1 ∧
    (s.delete id).dataEvents.length =
      (if id = -1 then s.dataEvents.length else s.dataEvents.length + 1) := by
  unfold TableDataSource.delete
  by_cases hid : id = -1
  · simp [hid, TableDataSource.updateDatasourceFromRows]
  · simp [hid, TableDataSource.updateDatasourceFromRows]

/-- C3: when the row's validation handle reports invalid, `confirmCreate`
and `confirmEdit` return `false` and perform no mutation at all: the whole
data-source state — row sequence, every row's `editing`/`currentData`/`id`,
and both publication logs — is returned unchanged. -/
theorem claim3_confirm_invalid_no_mutation (s : TableDataSource α) (idx : Nat)
    (row : TableElement α) (hx : s.rows[idx]? = some row) (hv : row.valid = false) :
    s.confirmCreate idx = (false, s) ∧ s.confirmEdit idx = (false, s) := by
  unfold TableDataSource.confirmCreate TableDataSource.confirmEdit
  rw [hx]
  simp [hv]

theorem claim3_confirm_invalid_no_mutation_witness :
    TableDataSource.confirmCreate
        ({ config := {}, emptyRecord := 0, freshRowValid := true,
           rows := [{ id := 0, editing := true, currentData := 5, originalData := none,
                      valid := false }],
           currentDataRef := none, rowEvents := [], dataEvents := [] } : TableDataSource Nat) 0
      = (false,
         { config := {}, emptyRecord := 0, freshRowValid := true,
           rows := [{ id := 0, editing := true, currentData := 5, originalData := none,
                      valid := false }],
           currentDataRef := none, rowEvents := [], dataEvents := [] }) ∧
    TableDataSource.confirmEdit
        ({ config := {}, emptyRecord := 0, freshRowValid := true,
           rows := [{ id := 0, editing := true, currentData := 5, originalData := none,
                      valid := false }],
           currentDataRef := none, rowEvents := [], dataEvents := [] } : TableDataSource Nat) 0
      = (false,
         { config := {}, emptyRecord := 0, freshRowValid := true,
           rows := [{ id := 0, editing := true, currentData := 5, originalData := none,
                      valid := false }],
           currentDataRef := none, rowEvents := [], dataEvents := [] }) :=
  claim3_confirm_invalid_no_mutation _ 0 _ rfl rfl

/-- C6 (counterexample): the claim's windowing rule, read in the order its
clauses are given, delivers the slice `[0, 5)` for the reported range
`(start, end) = (0, 5)` because `end > start`; the code's `connect`
checks `start > 0` first and therefore delivers the full sequence for any
range with `start = 0`.  On ten rows the two disagree. -/
theorem claim6_window_counterexample :
    connectSlice ⟨0, 5⟩ (List.range 10) = List.range 10 ∧
    connectSliceClaim ⟨0, 5⟩ (List.range 10) = List.range 5 ∧
    connectSlice ⟨0, 5⟩ (List.range 10) ≠ connectSliceClaim ⟨0, 5⟩ (List.range 10) := by
  decide

/-- C6 (amended): the view delivers the full sequence whenever the
reported `start ≤ 0` — even when `end > start`; only when `start > 0` does
it deliver `[start, end)` if `end > start` and `[start, +∞)` otherwise.
In particular rows `[r0..r9]` with range `[2, 5)` yield `[r2, r3, r4]`,
and the default range `[0, -1)` yields the full sequence. -/
theorem claim6_window_amended :
    (∀ (β : Type) (range : ListRange) (data : List β), range.start ≤ 0 →
        connectSlice range data = data) ∧
    (∀ (β : Type) (range : ListRange) (data : List β), 0 < range.start →
        connectSlice range data = connectSliceClaim range data) ∧
    connectSlice ⟨2, 5⟩ (List.range 10) = [2, 3, 4] ∧
    connectSlice ⟨0, -1⟩ (List.range 10) = List.range 10 := by
  refine ⟨?_, ?_, by decide, by decide⟩
  · intro β range data h
    unfold connectSlice
    rw [if_neg (by omega)]
  · intro β range data h
    unfold connectSlice connectSliceClaim
    by_cases he : range.stop > range.start
    · simp [h, he]
    · simp [h, he]

theorem claim6_window_amended_witness :
    connectSlice ⟨0, 5⟩ (List.range 10) = List.range 10 ∧
    connectSlice ⟨3, 2⟩ (List.range 10) = connectSliceClaim ⟨3, 2⟩ (List.range 10) :=
  ⟨claim6_window_amended.1 Nat ⟨0, 5⟩ (List.range 10) (by decide),
   claim6_window_amended.2.1 Nat ⟨3, 2⟩ (List.range 10) (by decide)⟩

/-- C9 (counterexample): `createNew(0)` does not insert the pending row at
index 0.  `if (insertAt)` is JavaScript truthiness and `0` is falsy, so an
explicit `insertAt = 0` falls through to the default placement: in append
mode on one committed row the resulting ids are `[0, -1]` (pending row
appended at the end), not `[-1, 0]` as the claim requires. -/
theorem claim9_insertAt_zero_counterexample :
    ((TableDataSource.createNew (TableDataSource.ofData {} (0 : Nat) true [10])
        (some 0)).rows.map TableElement.id = [0, -1]) ∧
    ¬ ((TableDataSource.createNew (TableDataSource.ofData {} (0 : Nat) true [10])
        (some 0)).rows.map TableElement.id = [-1, 0]) := by
  decide

/-- C9 (amended): an explicitly supplied `insertAt = 0` behaves exactly
like an absent argument; every nonzero in-range `insertAt` inserts the new
pending row at exactly that sequence index, overriding the
`prependNewElements` default; with the argument absent (or zero) the row
goes to the front in prepend mode and to the end in append mode. -/
theorem claim9_insertAt_amended (s : TableDataSource α) :
    (TableDataSource.createNew s (some 0) = TableDataSource.createNew s none) ∧
    (∀ i : Nat, i ≠ 0 → i ≤ s.rows.length →
      TableDataSource.existsNewElement s.rows = false →
      (TableDataSource.createNew s (some (i : Int))).rows
        = s.rows.take i ++ TableDataSource.newTableElement s :: s.rows.drop i) ∧
    (TableDataSource.existsNewElement s.rows = false →
      (TableDataSource.createNew s none).rows =
        if s.config.prependNewElements then TableDataSource.newTableElement s :: s.rows
        else s.rows ++ [TableDataSource.newTableElement s]) := by
  refine ⟨?_, ?_, ?_⟩
  · unfold TableDataSource.createNew
    simp
  · intro i hi hle he
    unfold TableDataSource.createNew
    have ht : decide ((i : Int) ≠ 0) = true := by simp; omega
    simp only [he, Bool.false_eq_true, if_false, ht, if_true, jsSpliceInsertOne, jsNormIndex]
    have hnn : ¬ ((i : Int) < 0) := by omega
    simp [hnn, Nat.min_eq_left hle]
  · intro he
    unfold TableDataSource.createNew
    by_cases hp : s.config.prependNewElements <;> simp [he, hp]

theorem claim9_insertAt_amended_witness :
    (TableDataSource.createNew (TableDataSource.ofData {} (0 : Nat) true [10, 20]) (some 0)
      = TableDataSource.createNew (TableDataSource.ofData {} (0 : Nat) true [10, 20]) none) ∧
    ((TableDataSource.createNew (TableDataSource.ofData {} (0 : Nat) true [10, 20])
        (some ((1 : Nat) : Int))).rows
      = (TableDataSource.ofData {} (0 : Nat) true [10, 20]).rows.take 1
        ++ TableDataSource.newTableElement (TableDataSource.ofData {} (0 : Nat) true [10, 20])
          :: (TableDataSource.ofData {} (0 : Nat) true [10, 20]).rows.drop 1) ∧
    ((TableDataSource.createNew (TableDataSource.ofData {} (0 : Nat) true [10, 20]) none).rows
      = if (TableDataSource.ofData {} (0 : Nat) true [10, 20]).config.prependNewElements
        then TableDataSource.newTableElement (TableDataSource.ofData {} (0 : Nat) true [10, 20])
          :: (TableDataSource.ofData {} (0 : Nat) true [10, 20]).rows
        else (TableDataSource.ofData {} (0 : Nat) true [10, 20]).rows
          ++ [TableDataSource.newTableElement (TableDataSource.ofData {} (0 : Nat) true [10, 20])]) :=
  ⟨(claim9_insertAt_amended _).1,
   (claim9_insertAt_amended _).2.1 1 (by decide) (by decide) (by decide),
   (claim9_insertAt_amended _).2.2 (by decide)⟩

/-- C10: deleting an id that is not present among the current rows' ids
removes the last element of a non-empty sequence (the `findIndex` lookup
yields `-1` and `splice(-1, 1)` removes the last element), performs no
renumbering (the remaining rows are exactly the original ones minus the
last), and still publishes on both channels when the id is not `-1`. -/
theorem claim10_delete_missing_id (s : TableDataSource α) (id : Int)
    (_hne : s.rows ≠ []) (habs : ∀ r ∈ s.rows, r.id ≠ id) :
    (s.delete id).rows = s.rows.dropLast ∧
    (s.delete id).rowEvents.length = s.rowEvents.length + 1 ∧
    (id ≠ -1 → (s.delete id).dataEvents.length = s.dataEvents.length + 1) := by
  have hfind : findIdxOpt (fun e => decide (e.id = id)) s.rows = none :=
    findIdxOpt_eq_none_iff.mpr (fun x hx => by simpa using habs x hx)
  have hidx : TableDataSource.getIndexFromRowId id s.rows = -1 := by
    unfold TableDataSource.getIndexFromRowId
    rw [hfind]
  have hrows : (s.delete id).rows = s.rows.dropLast := by
    rw [TableDataSource.rows_delete, hidx,
      TableDataSource.updateRowIds_of_neg _ (by omega), jsSpliceRemoveOne_neg_one]
  refine ⟨hrows, ?_, ?_⟩
  · unfold TableDataSource.delete
    by_cases hid : id ≠ -1 <;> simp [hid, TableDataSource.updateDatasourceFromRows]
  · intro hid
    unfold TableDataSource.delete
    simp [hid, TableDataSource.updateDatasourceFromRows]

theorem claim10_delete_missing_id_witness :
    (TableDataSource.delete (TableDataSource.ofData {} (0 : Nat) true [10, 20]) 7).rows
      = (TableDataSource.ofData {} (0 : Nat) true [10, 20]).rows.dropLast ∧
    (TableDataSource.delete (TableDataSource.ofData {} (0 : Nat) true [10, 20]) 7).rowEvents.length
      = (TableDataSource.ofData {} (0 : Nat) true [10, 20]).rowEvents.length + 1 ∧
    ((7 : Int) ≠ -1 →
      (TableDataSource.delete (TableDataSource.ofData {} (0 : Nat) true [10, 20]) 7).dataEvents.length
        = (TableDataSource.ofData {} (0 : Nat) true [10, 20]).dataEvents.length + 1) :=
  claim10_delete_missing_id _ 7 (by decide) (by decide)

/-- C1: evidence that the id invariant claimed by the spec (Invariant A) is
violated by the code.  In prepend mode with two initial records the ids are
`[1, 0]` and the invariant holds; `delete(0)` removes the row at index 1
and then calls `updateRowIds(1)` on the one-element remainder — the
renumbering loop's guard `index < source.length` fails immediately, so the
surviving committed row keeps id `1` where the invariant requires the
contiguous numbering `[0]`. -/
theorem claim1_delete_breaks_id_invariant :
    committedIdsConsistent {prependNewElements := true}
      (TableDataSource.ofData {prependNewElements := true} (0 : Nat) true [10, 20]).rows = true ∧
    ((TableDataSource.delete
        (TableDataSource.ofData {prependNewElements := true} (0 : Nat) true [10, 20]) 0).rows.map
          TableElement.id = [1]) ∧
    committedIdsConsistent {prependNewElements := true}
      (TableDataSource.delete
        (TableDataSource.ofData {prependNewElements := true} (0 : Nat) true [10, 20]) 0).rows
      = false := by
  decide

/-- C5: `updateDatasource` is reference-identity gated.  If the currently
held reference differs from the incoming one, the call rebuilds the row
sequence from the records and publishes exactly once on each channel; a
second call with the same reference is then a complete no-op; a different
reference with identical contents still triggers a full rebuild and a new
publication. -/
theorem claim5_updateDatasource_reference_shortcircuit (s : TableDataSource α)
    (refId : Nat) (contents : List α) (h : s.currentDataRef ≠ some refId) :
    (s.updateDatasource refId contents true).rowEvents.length = s.rowEvents.length + 1 ∧
    (s.updateDatasource refId contents true).dataEvents.length = s.dataEvents.length + 1 ∧
    (s.updateDatasource refId contents true).rows
      = TableDataSource.getRowsFromData s.config s.freshRowValid contents ∧
    TableDataSource.updateDatasource (s.updateDatasource refId contents true) refId contents true
      = s.updateDatasource refId contents true ∧
    (∀ refId2 : Nat, refId2 ≠ refId →
      (TableDataSource.updateDatasource (s.updateDatasource refId contents true)
          refId2 contents true).rowEvents.length
        = (s.updateDatasource refId contents true).rowEvents.length + 1 ∧
      (TableDataSource.updateDatasource (s.updateDatasource refId contents true)
          refId2 contents true).rows
        = TableDataSource.getRowsFromData s.config s.freshRowValid contents) := by
  have h1 : s.updateDatasource refId contents true =
      { s with
        currentDataRef := some refId
        rows := TableDataSource.getRowsFromData s.config s.freshRowValid contents
        rowEvents := TableDataSource.getRowsFromData s.config s.freshRowValid contents :: s.rowEvents
        dataEvents := contents :: s.dataEvents } := by
    unfold TableDataSource.updateDatasource
    simp [h]
  refine ⟨by simp [h1], by simp [h1], by simp [h1], ?_, ?_⟩
  · rw [h1]
    unfold TableDataSource.updateDatasource
    simp
  · intro refId2 h2
    have h3 : ¬ (refId = refId2) := fun hc => h2 hc.symm
    rw [h1]
    unfold TableDataSource.updateDatasource
    simp [h3]

theorem claim5_updateDatasource_reference_shortcircuit_witness :
    (TableDataSource.updateDatasource (TableDataSource.ofData {} (0 : Nat) true [1])
        42 [7] true).rowEvents.length
      = (TableDataSource.ofData {} (0 : Nat) true [1]).rowEvents.length + 1 ∧
    (TableDataSource.updateDatasource (TableDataSource.ofData {} (0 : Nat) true [1])
        42 [7] true).dataEvents.length
      = (TableDataSource.ofData {} (0 : Nat) true [1]).dataEvents.length + 1 ∧
    (TableDataSource.updateDatasource (TableDataSource.ofData {} (0 : Nat) true [1])
        42 [7] true).rows
      = TableDataSource.getRowsFromData {} true [7] ∧
    TableDataSource.updateDatasource
        (TableDataSource.updateDatasource (TableDataSource.ofData {} (0 : Nat) true [1])
          42 [7] true) 42 [7] true
      = TableDataSource.updateDatasource (TableDataSource.ofData {} (0 : Nat) true [1])
          42 [7] true ∧
    ((TableDataSource.updateDatasource
        (TableDataSource.updateDatasource (TableDataSource.ofData {} (0 : Nat) true [1])
          42 [7] true) 43 [7] true).rowEvents.length
      = (TableDataSource.updateDatasource (TableDataSource.ofData {} (0 : Nat) true [1])
          42 [7] true).rowEvents.length + 1 ∧
     (TableDataSource.updateDatasource
        (TableDataSource.updateDatasource (TableDataSource.ofData {} (0 : Nat) true [1])
          42 [7] true) 43 [7] true).rows
      = TableDataSource.getRowsFromData {} true [7]) :=
  ⟨(claim5_updateDatasource_reference_shortcircuit
      (TableDataSource.ofData {} (0 : Nat) true [1]) 42 [7] (by decide)).1,
   (claim5_updateDatasource_reference_shortcircuit
      (TableDataSource.ofData {} (0 : Nat) true [1]) 42 [7] (by decide)).2.1,
   (claim5_updateDatasource_reference_shortcircuit
      (TableDataSource.ofData {} (0 : Nat) true [1]) 42 [7] (by decide)).2.2.1,
   (claim5_updateDatasource_reference_shortcircuit
      (TableDataSource.ofData {} (0 : Nat) true [1]) 42 [7] (by decide)).2.2.2.1,
   (claim5_updateDatasource_reference_shortcircuit
      (TableDataSource.ofData {} (0 : Nat) true [1]) 42 [7] (by decide)).2.2.2.2
      43 (by decide)⟩

/-- C2: for every sequence of operations applied to a constructed data
source, at most one row of the resulting sequence carries the pending
sentinel `id = -1`; and `createNew` is a no-op (the state, sequence
included, is returned unchanged) whenever a pending row already exists. -/
theorem claim2_at_most_one_pending_row {α : Type} :
    (∀ (config : TableDataSourceOptions) (emptyRecord : α) (freshRowValid : Bool)
        (data : List α) (ops : List (TableOp α)),
      pendingCount (applyOps
        (TableDataSource.ofData config emptyRecord freshRowValid data) ops).rows ≤ 1) ∧
    (∀ (s : TableDataSource α) (insertAt : Option Int),
      TableDataSource.existsNewElement s.rows = true →
      TableDataSource.createNew s insertAt = s) := by
  constructor
  · intro config emptyRecord freshRowValid data ops
    refine pendingCount_applyOps _ ops ?_
    rw [pendingCount_ofData]
    omega
  · intro s insertAt h
    unfold TableDataSource.createNew
    rw [if_pos h]

theorem claim2_at_most_one_pending_row_witness :
    pendingCount (applyOps (TableDataSource.ofData {} (0 : Nat) true [5, 6])
      [TableOp.createNew none, TableOp.createNew none]).rows ≤ 1 ∧
    TableDataSource.createNew
        (TableDataSource.createNew (TableDataSource.ofData {} (0 : Nat) true [5, 6]) none) none
      = TableDataSource.createNew (TableDataSource.ofData {} (0 : Nat) true [5, 6]) none :=
  ⟨claim2_at_most_one_pending_row.1 {} 0 true [5, 6]
      [TableOp.createNew none, TableOp.createNew none],
   claim2_at_most_one_pending_row.2
      (TableDataSource.createNew (TableDataSource.ofData {} (0 : Nat) true [5, 6]) none) none
      (by decide)⟩
